import Mathlib

/-!
# Verification of the `slacker` notification sender

Shallow embedding of `slacker.go`: a Slack-webhook notifier that suppresses
duplicate notifications using a JSON file mapping message fingerprints
("hashes") to message text.

Modelling choices, each mirroring the Go source:
* The Go `map[string]string` database is an association list `Rec` with the
  Go map operations (later assignment to an existing key updates in place,
  new keys append; `encoding/json` serializes a map with its keys sorted).
* File contents are `List Char`; the single database file (`DatabaseFilePath`)
  is `FsState := Option (List Char)` (`none` = file absent).
* The `Encoder.Encode` of `encoding/json` on `map[string]string` is modelled down
  to string escaping (HTML escaping on, as in the default Go encoder);
  `Decoder.Decode` reads the *first* JSON value from the current reader
  offset and ignores what follows. Surrogate-pair combining for `\uXXXX`
  escapes is elided (lone escaped surrogates map to U+FFFD); the Go encoder
  never emits surrogate escapes, and no theorem below touches that path.
* `time.Now()` is an explicit `GoTime` parameter; `t.Format("2006-01-02-15")`
  and `t.Format("2006-01-02")` are `formatHour` / `formatDay`.
* The HTTP POST of one payload is an oracle `net : SlackMessage → Except String String`
  returning the response body or a transport error; `sendOne` is the Go
  method `send`, which treats any body other than `"ok"` as an error.
* Logging is dropped (it carries no data flow).
-/

/-- Association-list model of the Go type `map[string]string`. -/
abbrev Rec := List (String × String)

/-- Go map lookup `db[k]`. -/
def lookupRec : Rec → String → Option String
  | [], _ => none
  | (k', v') :: ps, k => if k' = k then some v' else lookupRec ps k

/-- Go map membership test `_, ok := db[k]`. -/
def memRec : Rec → String → Bool
  | [], _ => false
  | (k', _) :: ps, k => k' = k || memRec ps k

/-- Go map assignment `db[k] = v`: update in place if present, append if new. -/
def insertRec : Rec → String → String → Rec
  | [], k, v => [(k, v)]
  | (k', v') :: ps, k, v => if k' = k then (k, v) :: ps else (k', v') :: insertRec ps k v

/-- The keys of a Go map are pairwise distinct. -/
def NodupKeys (r : Rec) : Prop := (r.map Prod.fst).Nodup

instance : DecidablePred NodupKeys := fun r =>
  inferInstanceAs (Decidable (r.map Prod.fst).Nodup)

instance {ε α : Type} [DecidableEq ε] [DecidableEq α] : DecidableEq (Except ε α) := fun x y =>
  match x, y with
  | .ok a, .ok b =>
    if h : a = b then isTrue (by rw [h]) else isFalse (fun hh => by cases hh; exact h rfl)
  | .error a, .error b =>
    if h : a = b then isTrue (by rw [h]) else isFalse (fun hh => by cases hh; exact h rfl)
  | .ok _, .error _ => isFalse (fun hh => by cases hh)
  | .error _, .ok _ => isFalse (fun hh => by cases hh)

/-- `encoding/json` serializes map keys in sorted (byte-lexicographic) order;
UTF-8 byte order coincides with code-point order, i.e. with `String.le`. -/
def sortKeys (r : Rec) : Rec :=
  List.insertionSort (fun a b => a.1 ≤ b.1) r

/-- Wall-clock instant, the fields `time.Format` reads for the layouts used. -/
structure GoTime where
  year : Nat
  month : Nat
  day : Nat
  hour : Nat
  deriving DecidableEq

/-- Zero-pad to two digits (`01`, `02`, `15` layout fields). -/
def pad2 (n : Nat) : String :=
  if n < 10 then "0" ++ toString n else toString n

/-- Zero-pad to four digits (`2006` layout field). -/
def pad4 (n : Nat) : String :=
  if n < 10 then "000" ++ toString n
  else if n < 100 then "00" ++ toString n
  else if n < 1000 then "0" ++ toString n
  else toString n

/-- `t.Format("2006-01-02-15")`. -/
def formatHour (t : GoTime) : String :=
  pad4 t.year ++ "-" ++ pad2 t.month ++ "-" ++ pad2 t.day ++ "-" ++ pad2 t.hour

/-- `t.Format("2006-01-02")`. -/
def formatDay (t : GoTime) : String :=
  pad4 t.year ++ "-" ++ pad2 t.month ++ "-" ++ pad2 t.day

/-- `NotifyAlways`. -/
def NotifyAlways : Int := 0
/-- `NotifyOnceHour`. -/
def NotifyOnceHour : Int := 1
/-- `NotifyOnceDay`. -/
def NotifyOnceDay : Int := 2

/-- `DefaultDatabaseFilePath`. -/
def DefaultDatabaseFilePath : String := "slacker.json"
/-- `DefaultMessageTag`. -/
def DefaultMessageTag : String := "default_tag"
/-- `DefaultUsername`. -/
def DefaultUsername : String := "Slacker Notifier"
/-- `DefaultIconEmoji`. -/
def DefaultIconEmoji : String := ":ghost:"

/-- `Recipient` holds Channel and Username. -/
structure Recipient where
  Channel : String
  Username : String
  deriving DecidableEq

/-- `Slacker` sends notification tagged by MessageTag with Frequency.
The `Log` and `httpClient` fields carry no data flow and are dropped. -/
structure Slacker where
  Hook : String
  IconEmoji : String
  From : String
  To : List Recipient
  Frequency : Int
  MessageTag : String
  DatabaseFilePath : String
  deriving DecidableEq

/-- `SlackMessage`: the JSON payload POSTed for one recipient. -/
structure SlackMessage where
  Channel : String
  Username : String
  Text : String
  IconEmoji : String
  deriving DecidableEq

/-- `setDefaults`: validates `Hook` and `To` (in that order, before any
defaulting), then fills defaulted fields. Operates on the local copy held by `Send`. -/
def setDefaults (s : Slacker) : Except String Slacker :=
  if s.Hook = "" then .error "Web hook url is not set"
  else if s.To.length = 0 then .error "Recipients are not set"
  else .ok { s with
    IconEmoji := if s.IconEmoji = "" then DefaultIconEmoji else s.IconEmoji
    From := if s.From = "" then DefaultUsername else s.From
    MessageTag := if s.MessageTag = "" then DefaultMessageTag else s.MessageTag
    DatabaseFilePath :=
      if s.DatabaseFilePath = "" then DefaultDatabaseFilePath else s.DatabaseFilePath }

/-- `getHash`: the dedup fingerprint. `time.Now()` is the explicit `now`.
Any frequency other than `NotifyOnceHour` / `NotifyOnceDay` (including
`NotifyAlways`) falls through to the empty string. -/
def getHash (slacker : Slacker) (now : GoTime) (subject : String) : String :=
  if slacker.Frequency = NotifyOnceHour then
    formatHour now ++ ":" ++ slacker.MessageTag ++ ":" ++ subject
  else if slacker.Frequency = NotifyOnceDay then
    formatDay now ++ ":" ++ slacker.MessageTag ++ ":" ++ subject
  else
    ""

/-! ## JSON codec (`encoding/json` on `map[string]string`) -/

/-- Lowercase hex digit, `"0123456789abcdef"[n]`. -/
def hexDigitChar : Nat → Char
  | 0 => '0' | 1 => '1' | 2 => '2' | 3 => '3' | 4 => '4'
  | 5 => '5' | 6 => '6' | 7 => '7' | 8 => '8' | 9 => '9'
  | 10 => 'a' | 11 => 'b' | 12 => 'c' | 13 => 'd' | 14 => 'e' | 15 => 'f'
  | _ => '0'

/-- The four hex digits of a `\uXXXX` escape (code points `< 0x10000`). -/
def hexChars4 (n : Nat) : List Char :=
  [hexDigitChar (n / 4096 % 16), hexDigitChar (n / 256 % 16),
   hexDigitChar (n / 16 % 16), hexDigitChar (n % 16)]

/-- One character of the Go JSON string encoder (HTML escaping on, the
`json.Encoder` default): `"` `\` `\n` `\r` `\t` get two-character escapes;
other controls and `<` `>` `&` get `\u00XX`-style escapes (via `hexChars4`,
whose two leading digits are then `0`); U+2028/U+2029 get `\u202X`; everything
else is emitted literally. -/
def escChar (c : Char) : List Char :=
  if c = '"' then ['\\', '"']
  else if c = '\\' then ['\\', '\\']
  else if c = '\n' then ['\\', 'n']
  else if c = '\r' then ['\\', 'r']
  else if c = '\t' then ['\\', 't']
  else if c.toNat < 0x20 ∨ c = '<' ∨ c = '>' ∨ c = '&'
       ∨ c.toNat = 0x2028 ∨ c.toNat = 0x2029 then
    '\\' :: 'u' :: hexChars4 c.toNat
  else [c]

/-- Escape every character of a string body. -/
def escBody : List Char → List Char
  | [] => []
  | c :: cs => escChar c ++ escBody cs

/-- A JSON string literal: quote, escaped body, quote. -/
def encStr (s : String) : List Char := '"' :: (escBody s.data ++ ['"'])

/-- One `"key":"value"` member (compact output: no spaces). -/
def encPair (p : String × String) : List Char := encStr p.1 ++ ':' :: encStr p.2

/-- Comma-separated members. -/
def encPairs : Rec → List Char
  | [] => []
  | [p] => encPair p
  | p :: q :: ps => encPair p ++ ',' :: encPairs (q :: ps)

/-- A JSON object from an already-sorted member list. -/
def encObj (r : Rec) : List Char := '{' :: (encPairs r ++ ['}'])

/-- `json.Encoder.Encode(db)`: the object with sorted keys, then `'\n'`. -/
def encodeDb (r : Rec) : List Char := encObj (sortKeys r) ++ ['\n']

/-- JSON whitespace. -/
def isWs (c : Char) : Bool := c = ' ' || c = '\t' || c = '\n' || c = '\r'

/-- Drop leading JSON whitespace. -/
def skipWs : List Char → List Char
  | [] => []
  | c :: cs => if isWs c then skipWs cs else c :: cs

/-- Hex digit recognizer. -/
def isHexDigit (c : Char) : Bool :=
  ('0' ≤ c && c ≤ '9') || ('a' ≤ c && c ≤ 'f') || ('A' ≤ c && c ≤ 'F')

/-- Value of a hex digit. -/
def hexVal (c : Char) : Nat :=
  if c ≤ '9' then c.toNat - 48 else if c ≤ 'F' then c.toNat - 55 else c.toNat - 87

/-- The single-character JSON escapes. -/
def unescape (e : Char) : Option Char :=
  if e = '"' then some '"'
  else if e = '\\' then some '\\'
  else if e = '/' then some '/'
  else if e = 'b' then some (Char.ofNat 8)
  else if e = 'f' then some (Char.ofNat 12)
  else if e = 'n' then some '\n'
  else if e = 'r' then some '\r'
  else if e = 't' then some '\t'
  else none

/-- JSON string body after the opening quote: returns the decoded characters
and the input remaining after the closing quote. Literal control characters
are rejected, `\uXXXX` escapes are decoded (an escaped lone surrogate becomes
U+FFFD; pair combining is elided — the encoder never emits surrogate
escapes). -/
def parseStrBody : List Char → Option (List Char × List Char)
  | [] => none
  | c :: rest =>
    if c = '"' then some ([], rest)
    else if c = '\\' then
      match rest with
      | [] => none
      | e :: rest2 =>
        if e = 'u' then
          match rest2 with
          | h1 :: h2 :: h3 :: h4 :: rest3 =>
            if isHexDigit h1 && isHexDigit h2 && isHexDigit h3 && isHexDigit h4 then
              let n := hexVal h1 * 4096 + hexVal h2 * 256 + hexVal h3 * 16 + hexVal h4
              let u : Char :=
                if n < 0xD800 ∨ (0xDFFF < n ∧ n < 0x110000) then
                  Char.ofNat n
                else '�'
              match parseStrBody rest3 with
              | some (s, r) => some (u :: s, r)
              | none => none
            else none
          | _ => none
        else
          match unescape e with
          | some u =>
            match parseStrBody rest2 with
            | some (s, r) => some (u :: s, r)
            | none => none
          | none => none
    else if c.toNat < 0x20 then none
    else
      match parseStrBody rest with
      | some (s, r) => some (c :: s, r)
      | none => none

/-- Members of a JSON object (input positioned after `{`, at the first key):
`"key":"value"` pairs separated by commas, closed by `}`. Values must be
strings (the decode target is `map[string]string`); a later duplicate key
overwrites, as in the Go map fill. `fuel` bounds the member count and is
instantiated above the input length. -/
def parseMembers : Nat → Rec → List Char → Option (Rec × List Char)
  | 0, _, _ => none
  | fuel + 1, acc, cs =>
    match skipWs cs with
    | '"' :: rest =>
      match parseStrBody rest with
      | some (k, rest2) =>
        match skipWs rest2 with
        | ':' :: rest3 =>
          match skipWs rest3 with
          | '"' :: rest4 =>
            match parseStrBody rest4 with
            | some (v, rest5) =>
              let acc2 := insertRec acc (String.mk k) (String.mk v)
              match skipWs rest5 with
              | ',' :: rest6 => parseMembers fuel acc2 rest6
              | '}' :: rest6 => some (acc2, rest6)
              | _ => none
            | none => none
          | _ => none
        | _ => none
      | none => none
    | _ => none

/-- `json.Decoder.Decode(&db)` for `db : map[string]string`: reads the first
JSON value from the current offset and ignores anything after it; empty input
is `io.EOF`; a non-object value is a decode error (decoding `null`, legal in
Go but unreachable here, is elided). -/
def decodeDb (cs : List Char) : Except String Rec :=
  match skipWs cs with
  | [] => .error "EOF"
  | '{' :: rest =>
    match skipWs rest with
    | '}' :: _ => .ok []
    | _ =>
      match parseMembers (cs.length + 1) [] rest with
      | some (db, _) => .ok db
      | none => .error "invalid JSON object"
  | _ => .error "invalid character looking for beginning of value"

/-! ## The database file (`loadDb` / `saveDb` / `createDb`) -/

/-- The database file: `none` when absent. -/
abbrev FsState := Option (List Char)

/-- `createDb`: `os.Create`, `Truncate(0)`, write `"{}"`. Returns the file
contents and the handle offset, which after the write sits at end-of-file
(position 2). -/
def createDb : List Char × Nat := (['{', '}'], 2)

/-- `loadDb`: open the file; if that fails, create it via `createDb` and keep
that handle; then `json.Decoder.Decode` **from the current handle offset**.
A freshly created handle is positioned after the written `"{}"`, so the
decoder sees empty input and fails with `EOF`. Returns the file state and
the result. -/
def loadDb (st : FsState) : FsState × Except String Rec :=
  match st with
  | some contents =>
    match decodeDb contents with
    | .ok db => (some contents, .ok db)
    | .error e => (some contents, .error ("Slacker failed to load database: " ++ e))
  | none =>
    let (contents, offset) := createDb
    match decodeDb (contents.drop offset) with
    | .ok db => (some contents, .ok db)
    | .error e => (some contents, .error ("Slacker failed to load database: " ++ e))

/-- `saveDb`: `os.OpenFile(path, O_WRONLY, ...)` fails if the file is absent;
otherwise `Encoder.Encode` writes the serialization from offset 0 **without
truncating**, so prior contents longer than the serialization keep their tail. -/
def saveDb (db : Rec) (st : FsState) : FsState × Except String Unit :=
  match st with
  | none =>
    (none, .error "Slacker failed to save database: Failed to open database file: no such file")
  | some old =>
    let enc := encodeDb db
    (some (enc ++ old.drop enc.length), .ok ())

/-- `addToDb`: load, assign `db[hash] = subject`, save. -/
def addToDb (hash subject : String) (st : FsState) : FsState × Except String Unit :=
  match loadDb st with
  | (st1, .error e) =>
    (st1, .error ("Slacker failed to add " ++ hash ++ ":" ++ subject ++ " to database: " ++ e))
  | (st1, .ok db) =>
    match saveDb (insertRec db hash subject) st1 with
    | (st2, .error e) => (st2, .error ("Slacker failed to add " ++ hash ++ " to database: " ++ e))
    | (st2, .ok _) => (st2, .ok ())

/-- `inDb`: membership of `hash`; a load failure is logged and reported as
"not in the database". -/
def inDb (hash : String) (st : FsState) : FsState × Bool :=
  match loadDb st with
  | (st1, .error _) => (st1, false)
  | (st1, .ok db) => (st1, memRec db hash)

/-- `needToSend`: `Always` short-circuits to true without touching the store;
otherwise send iff the hash is not in the database. -/
def needToSend (slacker : Slacker) (hash : String) (st : FsState) : FsState × Bool :=
  if slacker.Frequency = NotifyAlways then (st, true)
  else
    let r := inDb hash st
    if r.2 then (r.1, false) else (r.1, true)

/-! ## Delivery and the `Send` orchestrator -/

/-- The payload built for one recipient inside the `Send` loop. -/
def mkPayload (slacker : Slacker) (message : String) (r : Recipient) : SlackMessage :=
  { Channel := r.Channel
    Username := slacker.From
    Text := r.Username ++ " " ++ message
    IconEmoji := slacker.IconEmoji }

/-- The Go method `send` (one HTTP POST): `net` is the network oracle giving
the response body or a transport error; any body other than `"ok"` is turned
into an error carrying the body. -/
def sendOne (net : SlackMessage → Except String String) (m : SlackMessage) :
    Except String String :=
  match net m with
  | .error e => .error e
  | .ok response =>
    if response = "ok" then .ok response
    else .error ("Response from Slack: " ++ response)

/-- The recipient loop of `Send`: POST to each recipient in order, stopping at the
first failure. Returns the payloads attempted (in order) and the outcome. -/
def fanOut (net : SlackMessage → Except String String) (slacker : Slacker)
    (message : String) : List Recipient → List SlackMessage × Except String Unit
  | [] => ([], .ok ())
  | r :: rest =>
    let m := mkPayload slacker message r
    match sendOne net m with
    | .error e => ([m], .error e)
    | .ok _ =>
      match fanOut net slacker message rest with
      | (ms, res) => (m :: ms, res)

/-- `Send`: validate/default the configuration, compute the hash, consult
`needToSend`, deliver to every recipient, then record the hash via `addToDb`.
Returns the final file state, the payloads POSTed (in order), and the error
result (`.ok ()` is the Go `nil`). -/
def Send (net : SlackMessage → Except String String) (slacker : Slacker)
    (now : GoTime) (message : String) (st : FsState) :
    FsState × List SlackMessage × Except String Unit :=
  match setDefaults slacker with
  | .error e => (st, [], .error ("Slacker failed to send message: " ++ e))
  | .ok sl =>
    let hash := getHash sl now message
    let nts := needToSend sl hash st
    if !nts.2 then (nts.1, [], .ok ())
    else
      let fo := fanOut net sl message sl.To
      match fo.2 with
      | .error e => (nts.1, fo.1, .error e)
      | .ok _ =>
        let atd := addToDb hash message nts.1
        (atd.1, fo.1, atd.2)

/-- The database contents as seen by a fresh load (statement helper). -/
def dbOf (st : FsState) : Except String Rec := (loadDb st).2

/-! ## Codec roundtrip lemmas -/

theorem hexVal_hexDigitChar {m : Nat} (h : m < 16) : hexVal (hexDigitChar m) = m := by
  interval_cases m <;> decide

theorem isHexDigit_hexDigitChar {m : Nat} (h : m < 16) : isHexDigit (hexDigitChar m) = true := by
  interval_cases m <;> decide

theorem parseStrBody_esc {e u : Char} (he : unescape e = some u) (hne : e ≠ 'u')
    {t s r : List Char} (h : parseStrBody t = some (s, r)) :
    parseStrBody ('\\' :: e :: t) = some (u :: s, r) := by
  rw [parseStrBody.eq_def]
  simp [(by decide : ¬ ('\\' : Char) = '"'), hne, he, h]

theorem parseStrBody_hexEscape {n : Nat} (hn : n < 0x10000) (hv : n < 0xD800 ∨ 0xDFFF < n)
    {t s r : List Char} (h : parseStrBody t = some (s, r)) :
    parseStrBody ('\\' :: 'u' :: (hexChars4 n ++ t)) = some (Char.ofNat n :: s, r) := by
  rw [parseStrBody.eq_def]
  have h1 : n / 4096 % 16 < 16 := Nat.mod_lt _ (by norm_num)
  have h2 : n / 256 % 16 < 16 := Nat.mod_lt _ (by norm_num)
  have h3 : n / 16 % 16 < 16 := Nat.mod_lt _ (by norm_num)
  have h4 : n % 16 < 16 := Nat.mod_lt _ (by norm_num)
  simp only [hexChars4, List.cons_append, List.nil_append]
  simp [(by decide : ¬ ('\\' : Char) = '"'),
        isHexDigit_hexDigitChar h1, isHexDigit_hexDigitChar h2,
        isHexDigit_hexDigitChar h3, isHexDigit_hexDigitChar h4,
        hexVal_hexDigitChar h1, hexVal_hexDigitChar h2,
        hexVal_hexDigitChar h3, hexVal_hexDigitChar h4, h]
  rw [if_pos, (by omega : n / 4096 % 16 * 4096 + n / 256 % 16 * 256 + n / 16 % 16 * 16 + n % 16 = n)]
  omega

theorem parseStrBody_escChar (c : Char) {t s r : List Char}
    (h : parseStrBody t = some (s, r)) :
    parseStrBody (escChar c ++ t) = some (c :: s, r) := by
  rw [escChar]
  by_cases h1 : c = '"'
  · subst h1
    simpa using parseStrBody_esc (by decide) (by decide) h
  rw [if_neg h1]
  by_cases h2 : c = '\\'
  · subst h2
    simpa using parseStrBody_esc (by decide) (by decide) h
  rw [if_neg h2]
  by_cases h3 : c = '\n'
  · subst h3
    simpa using parseStrBody_esc (by decide) (by decide) h
  rw [if_neg h3]
  by_cases h4 : c = '\r'
  · subst h4
    simpa using parseStrBody_esc (by decide) (by decide) h
  rw [if_neg h4]
  by_cases h5 : c = '\t'
  · subst h5
    simpa using parseStrBody_esc (by decide) (by decide) h
  rw [if_neg h5]
  by_cases h6 : c.toNat < 0x20 ∨ c = '<' ∨ c = '>' ∨ c = '&'
      ∨ c.toNat = 0x2028 ∨ c.toNat = 0x2029
  · rw [if_pos h6]
    have hn : c.toNat < 0x10000 := by
      rcases h6 with h | h | h | h | h | h
      · omega
      all_goals first
        | (subst h; decide)
        | omega
    have hv : c.toNat < 0xD800 ∨ 0xDFFF < c.toNat := by
      rcases h6 with h | h | h | h | h | h
      · omega
      all_goals first
        | (subst h; decide)
        | omega
    have := parseStrBody_hexEscape hn hv h
    rw [Char.ofNat_toNat] at this
    simpa using this
  · rw [if_neg h6]
    have hc : ¬ c.toNat < 0x20 := fun hh => h6 (Or.inl hh)
    rw [List.cons_append, List.nil_append, parseStrBody.eq_def]
    simp [h1, h2, hc, h]

theorem parseStrBody_escBody (l : List Char) (t : List Char) :
    parseStrBody (escBody l ++ ('"' :: t)) = some (l, t) := by
  induction l with
  | nil =>
    rw [escBody, List.nil_append, parseStrBody.eq_def]
    simp
  | cons c cs ih =>
    rw [escBody, List.append_assoc]
    exact parseStrBody_escChar c ih

theorem skipWs_cons {c : Char} (hc : isWs c = false) (t : List Char) :
    skipWs (c :: t) = c :: t := by
  rw [skipWs]
  simp [hc]

theorem string_mk_data (s : String) : String.mk s.data = s := rfl

theorem skipWs_quote (t : List Char) : skipWs ('"' :: t) = '"' :: t := skipWs_cons (by decide) t

theorem skipWs_colon (t : List Char) : skipWs (':' :: t) = ':' :: t := skipWs_cons (by decide) t

theorem skipWs_comma (t : List Char) : skipWs (',' :: t) = ',' :: t := skipWs_cons (by decide) t

theorem skipWs_rbrace (t : List Char) : skipWs ('}' :: t) = '}' :: t := skipWs_cons (by decide) t

theorem insertRec_not_mem {acc : Rec} {k : String} (hk : ¬ k ∈ acc.map Prod.fst) (v : String) :
    insertRec acc k v = acc ++ [(k, v)] := by
  induction acc with
  | nil => rfl
  | cons p ps ih =>
    obtain ⟨k', v'⟩ := p
    rw [insertRec]
    simp only [List.map_cons, List.mem_cons] at hk
    push_neg at hk
    rw [if_neg (fun h => hk.1 (by simpa using h.symm))]
    simp [ih (by simpa using hk.2)]

theorem parseMembers_encPairs :
    ∀ (l : Rec) (fuel : Nat) (acc : Rec) (t : List Char), l ≠ [] → l.length < fuel + 1 →
      (∀ p ∈ l, ¬ p.1 ∈ acc.map Prod.fst) → NodupKeys l →
      parseMembers (fuel + 1) acc (encPairs l ++ ('}' :: t)) = some (acc ++ l, t)
  | [], _, _, _, hne, _, _, _ => absurd rfl hne
  | [p], fuel, acc, t, _, _, hdisj, _ => by
    rw [parseMembers.eq_def]
    rw [encPairs, encPair, encStr, encStr]
    have e1 : parseStrBody (escBody p.1.data ++
        ('"' :: (':' :: ('"' :: (escBody p.2.data ++ ('"' :: ('}' :: t))))))) =
        some (p.1.data, ':' :: ('"' :: (escBody p.2.data ++ ('"' :: ('}' :: t))))) := by
      have := parseStrBody_escBody p.1.data (':' :: ('"' :: (escBody p.2.data ++ ('"' :: ('}' :: t)))))
      simpa using this
    have e2 : parseStrBody (escBody p.2.data ++ ('"' :: ('}' :: t))) =
        some (p.2.data, '}' :: t) := parseStrBody_escBody _ _
    simp only [List.cons_append, List.append_assoc, List.nil_append]
    simp only [skipWs_quote, skipWs_colon, skipWs_comma, skipWs_rbrace, e1, e2, string_mk_data]
    rw [insertRec_not_mem (hdisj p (by simp)) p.2]
  | p :: q :: ps, fuel, acc, t, _, hfuel, hdisj, hnd => by
    rw [parseMembers.eq_def]
    rw [encPairs, encPair, encStr, encStr]
    have e1 : parseStrBody (escBody p.1.data ++
        ('"' :: (':' :: ('"' :: (escBody p.2.data ++
          ('"' :: (',' :: (encPairs (q :: ps) ++ ('}' :: t))))))))) =
        some (p.1.data, ':' :: ('"' :: (escBody p.2.data ++
          ('"' :: (',' :: (encPairs (q :: ps) ++ ('}' :: t))))))) := by
      have := parseStrBody_escBody p.1.data (':' :: ('"' :: (escBody p.2.data ++
          ('"' :: (',' :: (encPairs (q :: ps) ++ ('}' :: t)))))))
      simpa using this
    have e2 : parseStrBody (escBody p.2.data ++ ('"' :: (',' :: (encPairs (q :: ps) ++ ('}' :: t))))) =
        some (p.2.data, ',' :: (encPairs (q :: ps) ++ ('}' :: t))) := parseStrBody_escBody _ _
    simp only [List.cons_append, List.append_assoc, List.nil_append]
    simp only [skipWs_quote, skipWs_colon, skipWs_comma, skipWs_rbrace, e1, e2, string_mk_data]
    rw [insertRec_not_mem (hdisj p (by simp)) p.2]
    cases fuel with
    | zero => simp at hfuel
    | succ f =>
      have ih := parseMembers_encPairs (q :: ps) f (acc ++ [(p.1, p.2)]) t (by simp)
        (by simpa using Nat.lt_of_succ_lt_succ hfuel)
        (by
          intro p' hp'
          simp only [List.map_append, List.mem_append]
          rintro (h | h)
          · exact hdisj p' (by simp [hp']) h
          · simp only [List.map_cons, List.map_nil, List.mem_singleton] at h
            have hne : p'.1 ≠ p.1 := by
              have hnd' := hnd
              simp only [NodupKeys, List.map_cons, List.nodup_cons] at hnd'
              intro heq
              exact hnd'.1 (heq ▸ (by simpa using List.mem_map_of_mem Prod.fst hp'))
            exact hne h)
        (by
          have := hnd
          simp only [NodupKeys, List.map_cons, List.nodup_cons] at this ⊢
          exact this.2)
      simp only [ih]
      simp

theorem skipWs_lbrace (t : List Char) : skipWs ('{' :: t) = '{' :: t := skipWs_cons (by decide) t

theorem sortKeys_perm (r : Rec) : List.Perm (sortKeys r) r := List.perm_insertionSort _ r

theorem nodupKeys_sortKeys {r : Rec} (h : NodupKeys r) : NodupKeys (sortKeys r) :=
  ((sortKeys_perm r).map Prod.fst).nodup_iff.mpr h

theorem length_encPair_pos (p : String × String) : 0 < (encPair p).length := by
  simp [encPair, encStr]

theorem length_encPairs_ge : ∀ l : Rec, l.length ≤ (encPairs l).length
  | [] => by simp [encPairs]
  | [p] => by
    rw [encPairs]
    have := length_encPair_pos p
    simpa using this
  | p :: q :: ps => by
    rw [encPairs]
    have h1 := length_encPair_pos p
    have h2 := length_encPairs_ge (q :: ps)
    simp only [List.length_append, List.length_cons] at *
    omega

theorem encPairs_cons_eq (p : String × String) (ps : Rec) :
    ∃ Y, encPairs (p :: ps) = '"' :: Y := by
  cases ps with
  | nil =>
    exact ⟨escBody p.1.data ++ ['"'] ++ (':' :: encStr p.2), by
      rw [encPairs, encPair, encStr]; simp⟩
  | cons q qs =>
    exact ⟨escBody p.1.data ++ ['"'] ++ (':' :: encStr p.2) ++ (',' :: encPairs (q :: qs)), by
      rw [encPairs, encPair, encStr]; simp⟩

theorem decodeDb_object {q : String × String} {qs : Rec} (hnd : NodupKeys (q :: qs))
    (t : List Char) :
    decodeDb ('{' :: (encPairs (q :: qs) ++ ('}' :: t))) = .ok (q :: qs) := by
  obtain ⟨Y, hY⟩ := encPairs_cons_eq q qs
  have hlen : (q :: qs).length < ('{' :: (encPairs (q :: qs) ++ ('}' :: t))).length + 1 := by
    have h1 := length_encPairs_ge (q :: qs)
    simp only [List.length_cons, List.length_append] at h1 ⊢
    omega
  have hp := parseMembers_encPairs (q :: qs) ('{' :: (encPairs (q :: qs) ++ ('}' :: t))).length
    [] t (by simp) hlen (by simp) hnd
  unfold decodeDb
  simp only [skipWs_lbrace]
  simp only [hY, List.cons_append] at hp ⊢
  simp only [skipWs_quote]
  simp only [List.length_cons, List.length_append] at hp ⊢
  simp [hp, (by decide : ¬ ('"' : Char) = '}')]

theorem decodeDb_encodeDb {r : Rec} (h : NodupKeys r) (extra : List Char) :
    decodeDb (encodeDb r ++ extra) = .ok (sortKeys r) := by
  cases hsk : sortKeys r with
  | nil =>
    have hp := sortKeys_perm r
    rw [hsk] at hp
    have hr : r = [] := hp.nil_eq.symm
    subst hr
    rfl
  | cons q qs =>
    have hnd : NodupKeys (q :: qs) := hsk ▸ nodupKeys_sortKeys h
    have hshape : encodeDb r ++ extra =
        '{' :: (encPairs (q :: qs) ++ ('}' :: ('\n' :: extra))) := by
      rw [encodeDb, hsk, encObj]
      simp
    rw [hshape]
    exact decodeDb_object hnd _

theorem memRec_eq_false_iff {r : Rec} {k : String} :
    memRec r k = false ↔ lookupRec r k = none := by
  induction r with
  | nil => simp [memRec, lookupRec]
  | cons p ps ih =>
    obtain ⟨k', v'⟩ := p
    rw [memRec, lookupRec]
    by_cases h : k' = k
    · simp [h]
    · simp [h, ih]

theorem memRec_true_iff {r : Rec} {k : String} :
    memRec r k = true ↔ k ∈ r.map Prod.fst := by
  induction r with
  | nil => simp [memRec]
  | cons p ps ih =>
    obtain ⟨k', v'⟩ := p
    rw [memRec]
    by_cases h : k' = k
    · simp [h]
    · simp [h, ih, Ne.symm h]

theorem memRec_insertRec_self (r : Rec) (k v : String) :
    memRec (insertRec r k v) k = true := by
  induction r with
  | nil => simp [insertRec, memRec]
  | cons p ps ih =>
    obtain ⟨k', v'⟩ := p
    rw [insertRec]
    by_cases h : k' = k
    · simp [h, memRec]
    · simp [h, memRec, ih]

theorem map_fst_insertRec {r : Rec} {k a v : String} :
    a ∈ (insertRec r k v).map Prod.fst ↔ a ∈ r.map Prod.fst ∨ a = k := by
  induction r with
  | nil => simp [insertRec]
  | cons p ps ih =>
    obtain ⟨k', v'⟩ := p
    rw [insertRec]
    by_cases h : k' = k
    · rw [if_pos h]
      subst h
      simp only [List.map_cons, List.mem_cons]
      tauto
    · rw [if_neg h]
      simp only [List.map_cons, List.mem_cons, ih]
      tauto

theorem nodupKeys_insertRec {r : Rec} (h : NodupKeys r) (k v : String) :
    NodupKeys (insertRec r k v) := by
  induction r with
  | nil => simp [insertRec, NodupKeys]
  | cons p ps ih =>
    obtain ⟨k', v'⟩ := p
    rw [NodupKeys, List.map_cons, List.nodup_cons] at h
    rw [insertRec]
    by_cases hk : k' = k
    · subst hk
      rw [if_pos rfl, NodupKeys, List.map_cons, List.nodup_cons]
      exact h
    · rw [if_neg hk, NodupKeys, List.map_cons, List.nodup_cons]
      refine ⟨fun hm => ?_, ih h.2⟩
      rcases map_fst_insertRec.mp hm with hm | hm
      · exact h.1 hm
      · exact hk hm

theorem lookupRec_insertRec_self (r : Rec) (k v : String) :
    lookupRec (insertRec r k v) k = some v := by
  induction r with
  | nil => simp [insertRec, lookupRec]
  | cons p ps ih =>
    obtain ⟨k', v'⟩ := p
    rw [insertRec]
    by_cases h : k' = k
    · simp [h, lookupRec]
    · simp [h, lookupRec, ih]

theorem lookupRec_insertRec_ne {r : Rec} {a k : String} (hne : a ≠ k) (v : String) :
    lookupRec (insertRec r k v) a = lookupRec r a := by
  have hka : ¬ k = a := fun hh => hne hh.symm
  induction r with
  | nil => simp [insertRec, lookupRec, hka]
  | cons p ps ih =>
    obtain ⟨k', v'⟩ := p
    rw [insertRec]
    by_cases h : k' = k
    · rw [if_pos h, lookupRec, lookupRec, h, if_neg hka, if_neg hka]
    · rw [if_neg h, lookupRec, lookupRec, ih]

theorem lookupRec_orderedInsert {p : String × String} {L : Rec}
    (hp : ¬ p.1 ∈ L.map Prod.fst) (k : String) :
    lookupRec (List.orderedInsert (fun a b => a.1 ≤ b.1) p L) k =
      (if p.1 = k then some p.2 else lookupRec L k) := by
  obtain ⟨pk, pv⟩ := p
  induction L with
  | nil => simp [List.orderedInsert, lookupRec]
  | cons q qs ih =>
    obtain ⟨qk, qv⟩ := q
    simp only [List.map_cons, List.mem_cons] at hp
    push_neg at hp
    simp only [List.orderedInsert]
    by_cases hle : pk ≤ qk
    · rw [if_pos hle]
      simp [lookupRec]
    · rw [if_neg hle, lookupRec, ih hp.2, lookupRec]
      by_cases h1 : qk = k
      · have h2 : ¬ pk = k := fun h2 => hp.1 (h2.trans h1.symm)
        simp [h1, h2]
      · simp [h1]

theorem lookupRec_sortKeys {r : Rec} (h : NodupKeys r) (k : String) :
    lookupRec (sortKeys r) k = lookupRec r k := by
  induction r with
  | nil => rfl
  | cons p ps ih =>
    rw [NodupKeys, List.map_cons, List.nodup_cons] at h
    have hstep : sortKeys (p :: ps) =
        List.orderedInsert (fun a b => a.1 ≤ b.1) p (sortKeys ps) := rfl
    rw [hstep, lookupRec_orderedInsert, lookupRec, ih h.2]
    intro hm
    exact h.1 (by
      have := ((sortKeys_perm ps).map Prod.fst).mem_iff.mp hm
      exact this)

/-! ## Store-level lemmas -/

theorem loadDb_some_ok {c : List Char} {db : Rec} (h : decodeDb c = .ok db) :
    loadDb (some c) = (some c, .ok db) := by
  rw [loadDb, h]

theorem loadDb_some_err {c : List Char} {e : String} (h : decodeDb c = .error e) :
    loadDb (some c) = (some c, .error ("Slacker failed to load database: " ++ e)) := by
  rw [loadDb, h]

theorem loadDb_none_eq :
    loadDb none = (some ['{', '}'], .error ("Slacker failed to load database: " ++ "EOF")) := rfl

theorem saveDb_some (db : Rec) (old : List Char) :
    saveDb db (some old) =
      (some (encodeDb db ++ old.drop (encodeDb db).length), .ok ()) := rfl

theorem addToDb_some_ok {c : List Char} {db : Rec} (hdec : decodeDb c = .ok db)
    (hash subject : String) :
    addToDb hash subject (some c) =
      (some (encodeDb (insertRec db hash subject) ++
        c.drop (encodeDb (insertRec db hash subject)).length), .ok ()) := by
  rw [addToDb, loadDb_some_ok hdec]
  rfl

theorem addToDb_some_err {c : List Char} {e : String} (hdec : decodeDb c = .error e)
    (hash subject : String) :
    addToDb hash subject (some c) =
      (some c, .error ("Slacker failed to add " ++ hash ++ ":" ++ subject ++
        " to database: " ++ ("Slacker failed to load database: " ++ e))) := by
  rw [addToDb, loadDb_some_err hdec]

theorem dbOf_after_addToDb {c : List Char} {db : Rec} (hnd : NodupKeys db)
    (hdec : decodeDb c = .ok db) (hash subject : String) :
    dbOf (addToDb hash subject (some c)).1 = .ok (sortKeys (insertRec db hash subject)) := by
  rw [addToDb_some_ok hdec, dbOf, loadDb,
    decodeDb_encodeDb (nodupKeys_insertRec hnd hash subject)]

theorem inDb_some_ok {c : List Char} {db : Rec} (hdec : decodeDb c = .ok db) (hash : String) :
    inDb hash (some c) = (some c, memRec db hash) := by
  rw [inDb, loadDb_some_ok hdec]

theorem inDb_load_fails {st : FsState} {e : String}
    (h : (loadDb st).2 = .error e) (hash : String) :
    inDb hash st = ((loadDb st).1, false) := by
  rw [inDb]
  rcases hld : loadDb st with ⟨st1, r⟩
  rw [hld] at h
  cases r with
  | error e' => rfl
  | ok db => simp at h

/-! ## Decision-engine and orchestrator lemmas -/

theorem needToSend_always {sl : Slacker} (h : sl.Frequency = NotifyAlways)
    (hash : String) (st : FsState) : needToSend sl hash st = (st, true) := by
  rw [needToSend, if_pos h]

theorem needToSend_notAlways_ok {sl : Slacker} {c : List Char} {db : Rec}
    (hf : sl.Frequency ≠ NotifyAlways) (hdec : decodeDb c = .ok db) (hash : String) :
    needToSend sl hash (some c) = (some c, !memRec db hash) := by
  rw [needToSend, if_neg hf, inDb_some_ok hdec]
  cases hm : memRec db hash <;> simp [hm]

theorem needToSend_load_fails {sl : Slacker} {st : FsState} {e : String}
    (hf : sl.Frequency ≠ NotifyAlways) (h : (loadDb st).2 = .error e) (hash : String) :
    needToSend sl hash st = ((loadDb st).1, true) := by
  rw [needToSend, if_neg hf, inDb_load_fails h]
  rfl

theorem inDb_true_state {hash : String} {st : FsState}
    (h : (inDb hash st).2 = true) : (inDb hash st).1 = st := by
  cases st with
  | none =>
    rw [inDb, loadDb_none_eq] at h
    simp at h
  | some c =>
    cases hdec : decodeDb c with
    | error e =>
      rw [inDb, loadDb_some_err hdec] at h
      simp at h
    | ok db =>
      rw [inDb, loadDb_some_ok hdec]

theorem needToSend_false_state {sl : Slacker} {hash : String} {st : FsState}
    (h : (needToSend sl hash st).2 = false) : (needToSend sl hash st).1 = st := by
  by_cases hf : sl.Frequency = NotifyAlways
  · rw [needToSend_always hf] at h
    simp at h
  · simp only [needToSend, if_neg hf] at h ⊢
    cases hb : (inDb hash st).2
    · rw [hb] at h
      simp at h
    · simp only [if_pos rfl]
      exact inDb_true_state hb

theorem setDefaults_fields {sl sl' : Slacker} (h : setDefaults sl = .ok sl') :
    sl'.Frequency = sl.Frequency ∧ sl'.To = sl.To ∧ sl'.Hook = sl.Hook := by
  rw [setDefaults] at h
  by_cases h1 : sl.Hook = ""
  · rw [if_pos h1] at h
    cases h
  · rw [if_neg h1] at h
    by_cases h2 : sl.To.length = 0
    · rw [if_pos h2] at h
      cases h
    · rw [if_neg h2] at h
      cases h
      exact ⟨rfl, rfl, rfl⟩

theorem fanOut_all_ok {net : SlackMessage → Except String String} {sl : Slacker}
    {msg : String} {rs : List Recipient}
    (h : ∀ r ∈ rs, net (mkPayload sl msg r) = .ok "ok") :
    fanOut net sl msg rs = (rs.map (mkPayload sl msg), .ok ()) := by
  induction rs with
  | nil => rfl
  | cons r rest ih =>
    rw [fanOut, sendOne, h r (by simp)]
    rw [ih (fun r' hr' => h r' (by simp [hr']))]
    rfl

theorem fanOut_fails_at {net : SlackMessage → Except String String} {sl : Slacker}
    {msg : String} {e : String} (rs1 : List Recipient) {rf : Recipient}
    (rs2 : List Recipient)
    (h1 : ∀ r ∈ rs1, net (mkPayload sl msg r) = .ok "ok")
    (h2 : sendOne net (mkPayload sl msg rf) = .error e) :
    fanOut net sl msg (rs1 ++ rf :: rs2) =
      ((rs1 ++ [rf]).map (mkPayload sl msg), .error e) := by
  induction rs1 with
  | nil =>
    rw [List.nil_append, fanOut, h2]
    rfl
  | cons r rest ih =>
    rw [List.cons_append, fanOut, sendOne, h1 r (by simp)]
    rw [ih (fun r' hr' => h1 r' (by simp [hr']))]
    rfl

theorem needToSend_fst_some (sl : Slacker) (hash : String) (c : List Char) :
    (needToSend sl hash (some c)).1 = some c := by
  by_cases hf : sl.Frequency = NotifyAlways
  · rw [needToSend_always hf]
  · rw [needToSend, if_neg hf]
    cases hdec : decodeDb c with
    | error e =>
      rw [inDb, loadDb_some_err hdec]
      rfl
    | ok db =>
      rw [inDb, loadDb_some_ok hdec]
      cases hm : memRec db hash <;> simp [hm]

theorem length_insertRec_mem {r : Rec} {k : String} (h : memRec r k = true) (v : String) :
    (insertRec r k v).length = r.length := by
  induction r with
  | nil => simp [memRec] at h
  | cons p ps ih =>
    obtain ⟨k', v'⟩ := p
    rw [memRec] at h
    rw [insertRec]
    by_cases hk : k' = k
    · rw [if_pos hk]
      simp
    · rw [if_neg hk]
      simp only [hk, false_or, Bool.false_or] at h
      simp [ih (by simpa using h)]

theorem string_append_right_ne {B T m1 m2 : String} (h : m1 ≠ m2) :
    B ++ ":" ++ T ++ ":" ++ m1 ≠ B ++ ":" ++ T ++ ":" ++ m2 := by
  intro heq
  apply h
  have hd := congrArg String.data heq
  simp only [String.data_append] at hd
  have hm := List.append_cancel_left hd
  calc m1 = String.mk m1.data := (string_mk_data m1).symm
    _ = String.mk m2.data := congrArg String.mk hm
    _ = m2 := string_mk_data m2

theorem string_append_tag_ne {B t1 t2 m : String} (h : t1 ≠ t2) :
    B ++ ":" ++ t1 ++ ":" ++ m ≠ B ++ ":" ++ t2 ++ ":" ++ m := by
  intro heq
  apply h
  have hd := congrArg String.data heq
  simp only [String.data_append, List.append_assoc] at hd
  have h1 := List.append_cancel_left hd
  have h2 := List.append_cancel_left h1
  have h3 := List.append_cancel_right h2
  calc t1 = String.mk t1.data := (string_mk_data t1).symm
    _ = String.mk t2.data := congrArg String.mk h3
    _ = t2 := string_mk_data t2

/-! ## Claim theorems -/

/-- C1 (code bug, evaluated at the failing input): calling `loadDb` when no
file exists does create the backing file containing `{}`, and a subsequent
load yields the empty mapping; but the first call itself does not return the
empty mapping — `createDb` leaves the handle positioned after the written
`"{}"`, so the decoder sees end-of-input and the first load returns an `EOF`
decode error. -/
theorem loadDb_absent_first_load_eof_second_load_empty :
    loadDb none = (some ['{', '}'],
      .error ("Slacker failed to load database: " ++ "EOF")) ∧
    loadDb (some ['{', '}']) = (some ['{', '}'], .ok []) := ⟨rfl, rfl⟩

/-- C2 counterexample: `saveDb` opens with `O_WRONLY` and never truncates, so
saving the empty record over a longer existing file does not overwrite the
prior contents — the file keeps the old bytes beyond the new serialization
(while the save itself reports success). -/
theorem saveDb_no_truncate_counterexample :
    (saveDb [] (some (encodeDb [("aaaaaaaa", "bb")]))).1 ≠ some (encodeDb ([] : Rec)) ∧
    (saveDb [] (some (encodeDb [("aaaaaaaa", "bb")]))).2 = .ok () := by
  constructor
  · decide
  · rfl

/-- C2 (amended): `saveDb` writes the full serialization of the Record at the
start of the existing file without truncating, so longer prior contents keep
their tail after the new JSON value; nevertheless a following load returns
exactly the saved Record (as a mapping: a permutation with identical lookups),
because decoding reads only the first JSON value. -/
theorem saveDb_loadDb_roundtrip {db : Rec} (hnd : NodupKeys db) (old : List Char) :
    saveDb db (some old) =
      (some (encodeDb db ++ old.drop (encodeDb db).length), .ok ()) ∧
    (loadDb (saveDb db (some old)).1).2 = .ok (sortKeys db) ∧
    List.Perm (sortKeys db) db ∧
    (∀ k, lookupRec (sortKeys db) k = lookupRec db k) := by
  refine ⟨rfl, ?_, sortKeys_perm db, lookupRec_sortKeys hnd⟩
  have h1 : (saveDb db (some old)).1 =
      some (encodeDb db ++ old.drop (encodeDb db).length) := rfl
  rw [h1, loadDb_some_ok (decodeDb_encodeDb hnd _)]

/-- Witness for the amended C2 at a concrete record and prior contents. -/
theorem saveDb_loadDb_roundtrip_witness :
    NodupKeys [("k", "v")] ∧
    (loadDb (saveDb [("k", "v")] (some ['x'])).1).2 = .ok (sortKeys [("k", "v")]) :=
  ⟨by decide, (saveDb_loadDb_roundtrip (by decide) ['x']).2.1⟩

/-- C3: under `Always` the fingerprint is empty; under `OncePerHour` it is
`formatHour(now) ++ ":" ++ tag ++ ":" ++ message`; under `OncePerDay` it is
`formatDay(now) ++ ":" ++ tag ++ ":" ++ message`; it is a function of
`(policy, tag, message, now)` only (determinism); and within a fixed time
bucket (the two bucketed policies), varying the message or varying the tag
yields a different fingerprint. -/
theorem getHash_spec (sl sl2 : Slacker) (now : GoTime) (msg m1 m2 t1 t2 : String) :
    (sl.Frequency = NotifyAlways → getHash sl now msg = "") ∧
    (sl.Frequency = NotifyOnceHour →
      getHash sl now msg = formatHour now ++ ":" ++ sl.MessageTag ++ ":" ++ msg) ∧
    (sl.Frequency = NotifyOnceDay →
      getHash sl now msg = formatDay now ++ ":" ++ sl.MessageTag ++ ":" ++ msg) ∧
    (sl2.Frequency = sl.Frequency → sl2.MessageTag = sl.MessageTag →
      getHash sl2 now msg = getHash sl now msg) ∧
    ((sl.Frequency = NotifyOnceHour ∨ sl.Frequency = NotifyOnceDay) → m1 ≠ m2 →
      getHash sl now m1 ≠ getHash sl now m2) ∧
    ((sl.Frequency = NotifyOnceHour ∨ sl.Frequency = NotifyOnceDay) → t1 ≠ t2 →
      getHash { sl with MessageTag := t1 } now msg ≠
        getHash { sl with MessageTag := t2 } now msg) := by
  refine ⟨?_, ?_, ?_, ?_, ?_, ?_⟩
  · intro hf
    rw [getHash, hf]
    rw [if_neg (by decide), if_neg (by decide)]
  · intro hf
    rw [getHash, hf, if_pos rfl]
  · intro hf
    rw [getHash, hf]
    rw [if_neg (by decide), if_pos rfl]
  · intro h1 h2
    rw [getHash, getHash, h1, h2]
  · intro hf hne
    rcases hf with hf | hf
    · rw [getHash, getHash, hf, if_pos rfl, if_pos rfl]
      exact string_append_right_ne hne
    · rw [getHash, getHash, hf]
      rw [if_neg (by decide), if_pos rfl, if_neg (by decide), if_pos rfl]
      exact string_append_right_ne hne
  · intro hf hne
    rcases hf with hf | hf
    · rw [getHash, getHash]
      simp only [hf, if_true]
      exact string_append_tag_ne hne
    · rw [getHash, getHash]
      simp only [hf, if_true, if_neg (show ¬ (NotifyOnceDay = NotifyOnceHour) by decide)]
      exact string_append_tag_ne hne

/-- Witness for C3: two different messages in the same hour bucket get
different fingerprints. -/
theorem getHash_spec_witness :
    getHash ⟨"h", "", "", [], NotifyOnceHour, "tag", ""⟩ ⟨2024, 1, 2, 15⟩ "a" ≠
      getHash ⟨"h", "", "", [], NotifyOnceHour, "tag", ""⟩ ⟨2024, 1, 2, 15⟩ "b" :=
  (getHash_spec ⟨"h", "", "", [], NotifyOnceHour, "tag", ""⟩
      ⟨"h", "", "", [], NotifyOnceHour, "tag", ""⟩ ⟨2024, 1, 2, 15⟩ "x" "a" "b"
      "t1" "t2").2.2.2.2.1 (Or.inl rfl) (by decide)

/-! ## `Send` path helpers -/

theorem Send_skip_helper {net : SlackMessage → Except String String} {sl sl' : Slacker}
    {now : GoTime} {msg : String} {st : FsState} (hdef : setDefaults sl = .ok sl')
    (hneed : (needToSend sl' (getHash sl' now msg) st).2 = false) :
    Send net sl now msg st = (st, [], .ok ()) := by
  simp only [Send, hdef, hneed, Bool.not_false, if_true]
  rw [needToSend_false_state hneed]

theorem Send_deliver_helper {net : SlackMessage → Except String String} {sl sl' : Slacker}
    {now : GoTime} {msg : String} {st : FsState} (hdef : setDefaults sl = .ok sl')
    (hneed : (needToSend sl' (getHash sl' now msg) st).2 = true)
    (hok : ∀ r ∈ sl'.To, net (mkPayload sl' msg r) = .ok "ok") :
    Send net sl now msg st =
      ((addToDb (getHash sl' now msg) msg (needToSend sl' (getHash sl' now msg) st).1).1,
       sl'.To.map (mkPayload sl' msg),
       (addToDb (getHash sl' now msg) msg (needToSend sl' (getHash sl' now msg) st).1).2) := by
  simp only [Send, hdef, hneed, Bool.not_true, Bool.false_eq_true, if_false,
    fanOut_all_ok hok]

theorem Send_deliver_fail_helper {net : SlackMessage → Except String String}
    {sl sl' : Slacker} {now : GoTime} {msg : String} {st : FsState}
    {rs1 : List Recipient} {rf : Recipient} {rs2 : List Recipient} {e : String}
    (hdef : setDefaults sl = .ok sl')
    (hneed : (needToSend sl' (getHash sl' now msg) st).2 = true)
    (hTo : sl'.To = rs1 ++ rf :: rs2)
    (h1 : ∀ r ∈ rs1, net (mkPayload sl' msg r) = .ok "ok")
    (h2 : sendOne net (mkPayload sl' msg rf) = .error e) :
    Send net sl now msg st =
      ((needToSend sl' (getHash sl' now msg) st).1,
       (rs1 ++ [rf]).map (mkPayload sl' msg), .error e) := by
  simp only [Send, hdef, hneed, Bool.not_true, Bool.false_eq_true, if_false, hTo,
    fanOut_fails_at rs1 rs2 h1 h2]

/-- C4: the dedup decision returns true immediately under `Always` without
consulting (or changing) the store, for every store state including an absent
file; for any other policy it loads the Record and, when the Record loads,
returns true iff the fingerprint is absent, leaving the store state — hence
the Record — unchanged. -/
theorem needToSend_spec (sl : Slacker) (hash : String) (st : FsState)
    (c : List Char) (db : Rec) :
    (sl.Frequency = NotifyAlways → needToSend sl hash st = (st, true)) ∧
    (sl.Frequency ≠ NotifyAlways → decodeDb c = .ok db →
      needToSend sl hash (some c) = (some c, !memRec db hash) ∧
      ((needToSend sl hash (some c)).2 = true ↔ lookupRec db hash = none)) := by
  refine ⟨fun hf => needToSend_always hf hash st, fun hf hdec => ?_⟩
  have h1 := needToSend_notAlways_ok hf hdec hash
  refine ⟨h1, ?_⟩
  rw [h1]
  cases hm : memRec db hash
  · simp [memRec_eq_false_iff.mp hm]
  · simp only [Bool.not_true]
    constructor
    · intro h
      exact absurd h (by simp)
    · intro h
      have h2 := memRec_eq_false_iff.mpr h
      rw [hm] at h2
      exact absurd h2 (by simp)

/-- Witness for C4 at concrete inputs: the `Always` bypass on an absent file,
and the membership test on the empty record. -/
theorem needToSend_spec_witness :
    needToSend ⟨"h", "", "", [], NotifyAlways, "", ""⟩ "x" none = (none, true) ∧
    needToSend ⟨"h", "", "", [], NotifyOnceHour, "", ""⟩ "x" (some ['{', '}']) =
      (some ['{', '}'], !memRec [] "x") :=
  ⟨(needToSend_spec ⟨"h", "", "", [], NotifyAlways, "", ""⟩ "x" none ['{', '}'] []).1 rfl,
   ((needToSend_spec ⟨"h", "", "", [], NotifyOnceHour, "", ""⟩ "x" (some ['{', '}'])
      ['{', '}'] []).2 (by decide) (by decide)).1⟩

/-- C5: when the Record load fails during the dedup-check (read) path under a
non-`Always` policy, the decision is permissive — the dedup check reports the
fingerprint as not present (`needToSend` is true), delivery proceeds to every
recipient, and the result of the call is the write-path (`addToDb`) result: the
read-path load failure is logged and dropped, never returned by `Send`. -/
theorem send_permissive_on_read_load_failure
    (net : SlackMessage → Except String String) (sl sl' : Slacker) (now : GoTime)
    (msg : String) (st : FsState) (e : String)
    (hdef : setDefaults sl = .ok sl') (hf : sl'.Frequency ≠ NotifyAlways)
    (hload : (loadDb st).2 = .error e)
    (hok : ∀ r ∈ sl'.To, net (mkPayload sl' msg r) = .ok "ok") :
    (needToSend sl' (getHash sl' now msg) st).2 = true ∧
    Send net sl now msg st =
      ((addToDb (getHash sl' now msg) msg (loadDb st).1).1,
       sl'.To.map (mkPayload sl' msg),
       (addToDb (getHash sl' now msg) msg (loadDb st).1).2) := by
  have hnts := needToSend_load_fails hf hload (getHash sl' now msg)
  refine ⟨by rw [hnts], ?_⟩
  rw [Send_deliver_helper hdef (by rw [hnts]) hok, hnts]

/-- Witness for C5: absent file (whose first load fails with the `EOF` decode
error), hour policy, one recipient, delivery succeeding: the send proceeds,
posts the payload, and even returns success because the write path then
finds the freshly created `{}` file via its own `loadDb`. -/
theorem send_permissive_on_read_load_failure_witness :
    (needToSend ⟨"http://h", ":i:", "bot", [⟨"#c", "u"⟩], NotifyOnceHour, "t", "f"⟩
      (getHash ⟨"http://h", ":i:", "bot", [⟨"#c", "u"⟩], NotifyOnceHour, "t", "f"⟩
        ⟨2024, 1, 2, 15⟩ "m") none).2 = true ∧
    Send (fun _ => .ok "ok") ⟨"http://h", ":i:", "bot", [⟨"#c", "u"⟩], NotifyOnceHour, "t", "f"⟩
      ⟨2024, 1, 2, 15⟩ "m" none =
      ((addToDb (getHash ⟨"http://h", ":i:", "bot", [⟨"#c", "u"⟩], NotifyOnceHour, "t", "f"⟩
          ⟨2024, 1, 2, 15⟩ "m") "m" (loadDb none).1).1,
       [⟨"#c", "u"⟩].map (mkPayload ⟨"http://h", ":i:", "bot", [⟨"#c", "u"⟩], NotifyOnceHour, "t", "f"⟩ "m"),
       (addToDb (getHash ⟨"http://h", ":i:", "bot", [⟨"#c", "u"⟩], NotifyOnceHour, "t", "f"⟩
          ⟨2024, 1, 2, 15⟩ "m") "m" (loadDb none).1).2) :=
  send_permissive_on_read_load_failure (fun _ => .ok "ok")
    ⟨"http://h", ":i:", "bot", [⟨"#c", "u"⟩], NotifyOnceHour, "t", "f"⟩
    ⟨"http://h", ":i:", "bot", [⟨"#c", "u"⟩], NotifyOnceHour, "t", "f"⟩
    ⟨2024, 1, 2, 15⟩ "m" none "Slacker failed to load database: EOF"
    rfl (by decide) rfl (fun r hr => rfl)

/-- C6: with at least two recipients and the first delivery failure at some
position in the configured order, `Send` attempts deliveries in order up to
and including the failing recipient, aborts the rest, returns that delivery
failure, and leaves the store file — hence the Record — exactly unchanged
(no fingerprint is added). -/
theorem send_aborts_on_delivery_failure
    (net : SlackMessage → Except String String) (sl sl' : Slacker) (now : GoTime)
    (msg : String) (c : List Char) (rs1 : List Recipient) (rf : Recipient)
    (rs2 : List Recipient) (e : String)
    (hdef : setDefaults sl = .ok sl')
    (hTo : sl'.To = rs1 ++ rf :: rs2)
    (_hlen : 2 ≤ sl'.To.length)
    (h1 : ∀ r ∈ rs1, net (mkPayload sl' msg r) = .ok "ok")
    (h2 : sendOne net (mkPayload sl' msg rf) = .error e)
    (hneed : (needToSend sl' (getHash sl' now msg) (some c)).2 = true) :
    Send net sl now msg (some c) =
      (some c, (rs1 ++ [rf]).map (mkPayload sl' msg), .error e) := by
  rw [Send_deliver_fail_helper hdef hneed hTo h1 h2,
    needToSend_fst_some sl' (getHash sl' now msg) c]

/-- Witness for C6: two recipients, the first POST answers `"ok"`, the second
answers `"no"`; starting from the empty `{}` store the call posts exactly the
two payloads, returns the delivery error carrying the body, and the file is
unchanged. -/
theorem send_aborts_on_delivery_failure_witness :
    Send (fun m => if m.Channel = "#two" then .ok "no" else .ok "ok")
      ⟨"http://h", ":i:", "bot", [⟨"#one", "u"⟩, ⟨"#two", "u"⟩], NotifyOnceHour, "t", "f"⟩
      ⟨2024, 1, 2, 15⟩ "m" (some ['{', '}']) =
      (some ['{', '}'],
       (([(⟨"#one", "u"⟩ : Recipient)] ++ [⟨"#two", "u"⟩]) : List Recipient).map
         (mkPayload ⟨"http://h", ":i:", "bot", [⟨"#one", "u"⟩, ⟨"#two", "u"⟩], NotifyOnceHour, "t", "f"⟩ "m"),
       .error ("Response from Slack: " ++ "no")) :=
  send_aborts_on_delivery_failure
    (fun m => if m.Channel = "#two" then .ok "no" else .ok "ok")
    ⟨"http://h", ":i:", "bot", [⟨"#one", "u"⟩, ⟨"#two", "u"⟩], NotifyOnceHour, "t", "f"⟩
    ⟨"http://h", ":i:", "bot", [⟨"#one", "u"⟩, ⟨"#two", "u"⟩], NotifyOnceHour, "t", "f"⟩
    ⟨2024, 1, 2, 15⟩ "m" ['{', '}'] [⟨"#one", "u"⟩] ⟨"#two", "u"⟩ [] ("Response from Slack: " ++ "no")
    rfl rfl (by decide) (by intro r hr; simp at hr; subst hr; rfl) rfl (by decide)

/-- C7: with an empty webhook URL or an empty recipient list, `Send` fails
with the corresponding configuration error from `setDefaults` (whose two
required-field checks precede all defaulting), performs no store or network
I/O (the store state is returned untouched and no payload is posted), and no
default is substituted for either required field. -/
theorem send_config_invalid (net : SlackMessage → Except String String)
    (sl : Slacker) (now : GoTime) (msg : String) (st : FsState)
    (h : sl.Hook = "" ∨ sl.To = []) :
    ∃ e, setDefaults sl = .error e ∧
      Send net sl now msg st =
        (st, [], .error ("Slacker failed to send message: " ++ e)) := by
  by_cases h1 : sl.Hook = ""
  · refine ⟨"Web hook url is not set", ?_, ?_⟩
    · rw [setDefaults, if_pos h1]
    · rw [Send, setDefaults, if_pos h1]
  · have h2 : sl.To = [] := h.resolve_left h1
    refine ⟨"Recipients are not set", ?_, ?_⟩
    · rw [setDefaults, if_neg h1, if_pos (by rw [h2]; rfl)]
    · rw [Send, setDefaults, if_neg h1, if_pos (by rw [h2]; rfl)]

/-- Witness for C7: a configuration with recipients but no webhook URL. -/
theorem send_config_invalid_witness :
    ∃ e, setDefaults ⟨"", "", "", [⟨"#c", "u"⟩], NotifyAlways, "", ""⟩ = .error e ∧
      Send (fun _ => .ok "ok") ⟨"", "", "", [⟨"#c", "u"⟩], NotifyAlways, "", ""⟩
        ⟨2024, 1, 2, 15⟩ "m" none =
        (none, [], .error ("Slacker failed to send message: " ++ e)) :=
  send_config_invalid (fun _ => .ok "ok") ⟨"", "", "", [⟨"#c", "u"⟩], NotifyAlways, "", ""⟩
    ⟨2024, 1, 2, 15⟩ "m" none (Or.inl rfl)

/-- C8: whenever the dedup decision returns false, `Send` performs no delivery
at all (no payload posted), returns success, and hands back the store state
unchanged — the Record is untouched. -/
theorem send_noop_when_dedup_false (net : SlackMessage → Except String String)
    (sl sl' : Slacker) (now : GoTime) (msg : String) (st : FsState)
    (hdef : setDefaults sl = .ok sl')
    (hneed : (needToSend sl' (getHash sl' now msg) st).2 = false) :
    Send net sl now msg st = (st, [], .ok ()) :=
  Send_skip_helper hdef hneed

/-- Witness for C8: hour policy with the fingerprint already recorded. -/
theorem send_noop_when_dedup_false_witness :
    Send (fun _ => .ok "ok") ⟨"http://h", ":i:", "bot", [⟨"#c", "u"⟩], NotifyOnceHour, "t", "f"⟩
      ⟨2024, 1, 2, 15⟩ "m"
      (some (encodeDb [("2024-01-02-15:t:m", "m")])) =
      (some (encodeDb [("2024-01-02-15:t:m", "m")]), [], .ok ()) :=
  send_noop_when_dedup_false (fun _ => .ok "ok")
    ⟨"http://h", ":i:", "bot", [⟨"#c", "u"⟩], NotifyOnceHour, "t", "f"⟩
    ⟨"http://h", ":i:", "bot", [⟨"#c", "u"⟩], NotifyOnceHour, "t", "f"⟩
    ⟨2024, 1, 2, 15⟩ "m" (some (encodeDb [("2024-01-02-15:t:m", "m")])) rfl (by decide)

/-- C9: under `Always` with all deliveries succeeding, `Send` still runs the
`addToDb` load-mutate-save cycle with the empty-string hash, so the final
Record carries the entry `"" ↦ message`, an existing empty-key entry is
overwritten in place (other keys untouched, no growth), and — shown by the
closed conjunct at a corrupt store — the call can return a store error even
though every delivery succeeded; the Record is never left untouched by a
successful `Always` send. -/
theorem always_send_still_updates_record
    (net : SlackMessage → Except String String) (sl sl' : Slacker) (now : GoTime)
    (msg : String) (c : List Char) (db : Rec)
    (hdef : setDefaults sl = .ok sl') (hf : sl'.Frequency = NotifyAlways)
    (hdec : decodeDb c = .ok db) (hnd : NodupKeys db)
    (hok : ∀ r ∈ sl'.To, net (mkPayload sl' msg r) = .ok "ok") :
    getHash sl' now msg = "" ∧
    Send net sl now msg (some c) =
      ((addToDb "" msg (some c)).1, sl'.To.map (mkPayload sl' msg),
       (addToDb "" msg (some c)).2) ∧
    (addToDb "" msg (some c)).2 = .ok () ∧
    dbOf (addToDb "" msg (some c)).1 = .ok (sortKeys (insertRec db "" msg)) ∧
    lookupRec (insertRec db "" msg) "" = some msg ∧
    (∀ k, k ≠ "" → lookupRec (insertRec db "" msg) k = lookupRec db k) ∧
    (memRec db "" = true → (insertRec db "" msg).length = db.length) ∧
    (Send (fun _ => .ok "ok")
        ⟨"http://h", ":i:", "bot", [⟨"#ops", "u"⟩], NotifyAlways, "t", "f"⟩
        ⟨2024, 1, 2, 15⟩ "m" (some ['x'])).2.1 =
      [⟨"#ops", "bot", "u" ++ " " ++ "m", ":i:"⟩] ∧
    (Send (fun _ => .ok "ok")
        ⟨"http://h", ":i:", "bot", [⟨"#ops", "u"⟩], NotifyAlways, "t", "f"⟩
        ⟨2024, 1, 2, 15⟩ "m" (some ['x'])).2.2 =
      .error ("Slacker failed to add " ++ "" ++ ":" ++ "m" ++ " to database: " ++
        ("Slacker failed to load database: " ++
          "invalid character looking for beginning of value")) := by
  have hh : getHash sl' now msg = "" := by
    rw [getHash, hf]
    rw [if_neg (by decide), if_neg (by decide)]
  refine ⟨hh, ?_, ?_, dbOf_after_addToDb hnd hdec "" msg,
    lookupRec_insertRec_self db "" msg,
    fun k hk => lookupRec_insertRec_ne hk msg,
    fun hm => length_insertRec_mem hm msg, by decide, by decide⟩
  · have hneed : (needToSend sl' (getHash sl' now msg) (some c)).2 = true := by
      rw [needToSend_always hf]
    rw [Send_deliver_helper hdef hneed hok, needToSend_fst_some, hh]
  · rw [addToDb_some_ok hdec]

/-- Witness for C9: empty `{}` store, one recipient, everything succeeding. -/
theorem always_send_still_updates_record_witness :
    getHash ⟨"http://h", ":i:", "bot", [⟨"#ops", "u"⟩], NotifyAlways, "t", "f"⟩
      ⟨2024, 1, 2, 15⟩ "m" = "" ∧
    lookupRec (insertRec [] "" "m") "" = some "m" :=
  ⟨(always_send_still_updates_record (fun _ => .ok "ok")
      ⟨"http://h", ":i:", "bot", [⟨"#ops", "u"⟩], NotifyAlways, "t", "f"⟩
      ⟨"http://h", ":i:", "bot", [⟨"#ops", "u"⟩], NotifyAlways, "t", "f"⟩
      ⟨2024, 1, 2, 15⟩ "m" ['{', '}'] [] rfl rfl (by decide) (by decide)
      (fun r hr => rfl)).1,
   (always_send_still_updates_record (fun _ => .ok "ok")
      ⟨"http://h", ":i:", "bot", [⟨"#ops", "u"⟩], NotifyAlways, "t", "f"⟩
      ⟨"http://h", ":i:", "bot", [⟨"#ops", "u"⟩], NotifyAlways, "t", "f"⟩
      ⟨2024, 1, 2, 15⟩ "m" ['{', '}'] [] rfl rfl (by decide) (by decide)
      (fun r hr => rfl)).2.2.2.2.1⟩

/-- C10: for a frequency outside the three defined policies the fingerprint is
the empty string while dedup stays active: once the Record holds the empty-key
entry, every further send with that configuration — any message, any time, any
network behavior — is suppressed (success, no POST, state unchanged); and a
first successful send from a Record without the empty key records exactly that
empty-key entry. -/
theorem unknown_frequency_empty_hash_dedup
    (net net2 : SlackMessage → Except String String) (sl sl' : Slacker)
    (now now2 : GoTime) (msg msg2 : String) (c : List Char) (db : Rec)
    (hdef : setDefaults sl = .ok sl')
    (hf0 : sl'.Frequency ≠ NotifyAlways) (hf1 : sl'.Frequency ≠ NotifyOnceHour)
    (hf2 : sl'.Frequency ≠ NotifyOnceDay)
    (hdec : decodeDb c = .ok db) :
    getHash sl' now msg = "" ∧
    (memRec db "" = true →
      Send net2 sl now2 msg2 (some c) = (some c, [], .ok ())) ∧
    (memRec db "" = false → NodupKeys db →
      (∀ r ∈ sl'.To, net (mkPayload sl' msg r) = .ok "ok") →
      (Send net sl now msg (some c)).2.2 = .ok () ∧
      (Send net sl now msg (some c)).2.1 = sl'.To.map (mkPayload sl' msg) ∧
      dbOf (Send net sl now msg (some c)).1 = .ok (sortKeys (insertRec db "" msg)) ∧
      memRec (insertRec db "" msg) "" = true) := by
  have hh : ∀ (t : GoTime) (m : String), getHash sl' t m = "" := by
    intro t m
    rw [getHash, if_neg hf1, if_neg hf2]
  refine ⟨hh now msg, fun hm => ?_, fun hm hnd hok => ?_⟩
  · have hneed : (needToSend sl' (getHash sl' now2 msg2) (some c)).2 = false := by
      rw [hh now2 msg2, needToSend_notAlways_ok hf0 hdec "", hm]
      rfl
    exact Send_skip_helper hdef hneed
  · have hneed : (needToSend sl' (getHash sl' now msg) (some c)).2 = true := by
      rw [hh now msg, needToSend_notAlways_ok hf0 hdec "", hm]
      rfl
    have hsend := Send_deliver_helper hdef hneed hok
    rw [needToSend_fst_some, hh now msg] at hsend
    rw [hsend]
    exact ⟨by rw [addToDb_some_ok hdec], rfl,
      dbOf_after_addToDb hnd hdec "" msg, memRec_insertRec_self db "" msg⟩

/-- Witness for C10: frequency 3, empty-key entry present, arbitrary later
message and time are suppressed. -/
theorem unknown_frequency_empty_hash_dedup_witness :
    getHash ⟨"http://h", ":i:", "bot", [⟨"#c", "u"⟩], 3, "t", "f"⟩ ⟨2024, 1, 2, 15⟩ "m" = "" ∧
    Send (fun _ => .error "down") ⟨"http://h", ":i:", "bot", [⟨"#c", "u"⟩], 3, "t", "f"⟩
      ⟨2031, 7, 8, 9⟩ "other" (some (encodeDb [("", "m")])) =
      (some (encodeDb [("", "m")]), [], .ok ()) :=
  ⟨(unknown_frequency_empty_hash_dedup (fun _ => .ok "ok") (fun _ => .error "down")
      ⟨"http://h", ":i:", "bot", [⟨"#c", "u"⟩], 3, "t", "f"⟩
      ⟨"http://h", ":i:", "bot", [⟨"#c", "u"⟩], 3, "t", "f"⟩
      ⟨2024, 1, 2, 15⟩ ⟨2031, 7, 8, 9⟩ "m" "other" (encodeDb [("", "m")]) [("", "m")]
      rfl (by decide) (by decide) (by decide) (by decide)).1,
   ((unknown_frequency_empty_hash_dedup (fun _ => .ok "ok") (fun _ => .error "down")
      ⟨"http://h", ":i:", "bot", [⟨"#c", "u"⟩], 3, "t", "f"⟩
      ⟨"http://h", ":i:", "bot", [⟨"#c", "u"⟩], 3, "t", "f"⟩
      ⟨2024, 1, 2, 15⟩ ⟨2031, 7, 8, 9⟩ "m" "other" (encodeDb [("", "m")]) [("", "m")]
      rfl (by decide) (by decide) (by decide) (by decide)).2.1 (by decide))⟩
